import Mathlib

/-!
Verification development for the routing core of the marketplace MCP server:
the catalog library (`mcp-server/src/catalog.ts`), the project profiler
(`mcp-server/src/detect.ts`) and the worker matcher
(`features/workers/matcher.ts`).

Modelling conventions:
* JS strings are lists of characters (`Str`); string literals are embedded
  with `str`.
* JS numbers are rationals (`ℚ`); DB counters are naturals (`ℕ`).
  Numeric DB columns stored as strings (`reputationScore`, `pricing`) are
  modelled by their parsed value, i.e. `parseFloat` is applied at the
  boundary of the model.
* I/O (filesystem, network, database) is passed in explicitly: a record of
  probe functions whose `Option`/sum results model success or a thrown
  error; `try { … } catch { … }` in the source corresponds to matching on
  that result.
* Presentational interpolated reason strings (e.g. `High rating: …/5`) are
  not part of the model; constant message strings are kept verbatim.
-/

namespace Mentat

/-- JS strings modelled as lists of characters. -/
abbrev Str := List Char

/-- Embed a string literal as a character list. -/
def str (s : String) : Str := s.toList

/-- Characters removed by JS `String.prototype.trim` (the WhiteSpace and
LineTerminator productions; a representative set including the ASCII
whitespace characters, NBSP and the BOM). -/
def jsWhitespace (c : Char) : Bool :=
  c = ' ' || c = '\t' || c = '\n' || c = '\x0d' || c = '\x0b' || c = '\x0c' ||
  c = '\xa0' || c = Char.ofNat 0xfeff || c = Char.ofNat 0x2028 || c = Char.ofNat 0x2029

/-- JS `s.trim()`: strip leading and trailing whitespace. -/
def jsTrim (s : Str) : Str :=
  ((s.dropWhile jsWhitespace).reverse.dropWhile jsWhitespace).reverse

/-- Scan `s` for the first position (counted from `i`) where `pat` is a
prefix; returns the absolute index.  Auxiliary for `indexOfFrom`. -/
def indexOfAux (pat : Str) : Str → ℕ → Option ℕ
  | [], i => if pat.isPrefixOf [] then some i else none
  | c :: rest, i =>
    if pat.isPrefixOf (c :: rest) then some i else indexOfAux pat rest (i + 1)

/-- JS `s.indexOf(pat, start)` (with `none` for `-1`). -/
def indexOfFrom (s pat : Str) (start : ℕ) : Option ℕ :=
  indexOfAux pat (s.drop start) start

/-- JS `s.includes(sub)` (substring containment). -/
def strIncludes (s sub : Str) : Bool :=
  (List.range (s.length + 1)).any (fun i => sub.isPrefixOf (s.drop i))

/-- JS `s.toLowerCase()` (ASCII range, which is all the source relies on). -/
def toLowerStr (s : Str) : Str := s.map Char.toLower

/-! ## Catalog data model (`mcp-server/src/types.ts`) -/

/-- `EntryType` from `types.ts`. -/
inductive EntryType where
  | skill | cli | mcp | agent
  deriving DecidableEq, Repr

/-- The optional `detect` rule of a catalog entry. -/
structure DetectRule where
  files : Option (List Str)
  dependencies : Option (List Str)
  exclude_files : Option (List Str)
  deriving DecidableEq, Repr

/-- `CatalogEntry` from `types.ts` (`context_patterns`/`examples` carry no
behaviour in the verified code paths and are kept as opaque payloads). -/
structure CatalogEntry where
  id : Str
  type : EntryType
  name : Str
  description : Str
  instructions : Str
  detect : Option DetectRule
  context_patterns : Option (List Str)
  examples : Option Str
  source : Option Str
  stars : Option ℕ
  deriving DecidableEq, Repr

/-- `ProjectProfile` from `types.ts`. -/
structure ProjectProfile where
  language : List Str
  framework : Option Str
  dependencies : List Str
  configs : List Str
  packageManager : Option Str
  fileTypes : List Str
  deriving DecidableEq, Repr

/-! ## `CatalogLibrary.matchesProfile` (`catalog.ts` lines 223–243) -/

/-- Direct translation of `matchesProfile`.  `profile.configs.includes(f)`
becomes decidable list membership. -/
def matchesProfile (entry : CatalogEntry) (profile : ProjectProfile) : Bool :=
  match entry.detect with
  | none => true
  | some detect =>
    let hasExcluded : Bool :=
      match detect.exclude_files with
      | some ex => !ex.isEmpty && ex.any (fun f => decide (f ∈ profile.configs))
      | none => false
    if hasExcluded then false
    else
      let hasFileRule : Bool :=
        match detect.files with
        | some fs => !fs.isEmpty
        | none => false
      let hasDepRule : Bool :=
        match detect.dependencies with
        | some ds => !ds.isEmpty
        | none => false
      if !hasFileRule && !hasDepRule then true
      else
        let fileMatch : Bool :=
          hasFileRule && (detect.files.getD []).any (fun f => decide (f ∈ profile.configs))
        let depMatch : Bool :=
          hasDepRule && (detect.dependencies.getD []).any (fun d => decide (d ∈ profile.dependencies))
        fileMatch || depMatch

/-! ## `CatalogLibrary.getRelevantEntries` merge (`catalog.ts` lines 29–42)

A JS `Map` keyed by `id` with `Map.set` applied bundled-first then
project-second, read back with `Array.from(map.values())`, is an
insertion-ordered association list where `set` overwrites in place. -/

/-- `byId.set(entry.id, entry)` on an insertion-ordered id-keyed list. -/
def mapInsert : List CatalogEntry → CatalogEntry → List CatalogEntry
  | [], e => [e]
  | x :: xs, e => if x.id = e.id then e :: xs else x :: mapInsert xs e

/-- The id-keyed table built by `getRelevantEntries`: bundled entries are
applied first, project entries second. -/
def mergeById (bundled project : List CatalogEntry) : List CatalogEntry :=
  project.foldl mapInsert (bundled.foldl mapInsert [])

/-- `getRelevantEntries` after both catalogs are loaded: merge by id, then
filter by profile. -/
def getRelevantEntries (bundled project : List CatalogEntry)
    (profile : ProjectProfile) : List CatalogEntry :=
  (mergeById bundled project).filter (fun e => matchesProfile e profile)

/-- First entry with the given id (JS `Map.get`). -/
def lookupId (l : List CatalogEntry) (i : Str) : Option CatalogEntry :=
  l.find? (fun e => decide (e.id = i))

/-- Last entry of a list carrying the given id (the value a JS `Map` holds
after `set`-ing the whole list in order). -/
def lastWithId : List CatalogEntry → Str → Option CatalogEntry
  | [], _ => none
  | x :: xs, i =>
    match lastWithId xs i with
    | some e => some e
    | none => if x.id = i then some x else none

/-! ## `CatalogLibrary.parseSkillMd` (`catalog.ts` lines 152–161) -/

/-- Direct translation of `parseSkillMd`: trim, and when the trimmed text
starts with the `---` frontmatter marker and a second `---` occurs at index
≥ 3, return the trimmed text after that marker. -/
def parseSkillMd (content : Str) : Str :=
  let trimmed := jsTrim content
  if (str "---").isPrefixOf trimmed then
    match indexOfFrom trimmed (str "---") 3 with
    | some endIndex => jsTrim (trimmed.drop (endIndex + 3))
    | none => trimmed
  else trimmed

/-! ## `CatalogLibrary.resolveSourceUrl` (`catalog.ts` lines 127–147) -/

/-- Direct translation of `resolveSourceUrl`. -/
def resolveSourceUrl (source : Str) : Option Str :=
  if (str "github:").isPrefixOf source then
    let ghPath := source.drop (str "github:").length
    let parts := ghPath.splitOn '/'
    if parts.length < 2 then none
    else
      let owner := parts.headI
      let repo := (parts.drop 1).headI
      let skillPath := List.intercalate (str "/") (parts.drop 2)
      let filePath :=
        if (str ".md").isSuffixOf skillPath then skillPath
        else skillPath ++ str "/SKILL.md"
      some (str "https://raw.githubusercontent.com/" ++ owner ++ str "/" ++
        repo ++ str "/main/" ++ filePath)
  else if (str "http://").isPrefixOf source || (str "https://").isPrefixOf source then
    some source
  else none

/-! ## `CatalogLibrary.fetchFromSource` / `resolveSource`
(`catalog.ts` lines 68–120), with the I/O environment explicit. -/

/-- Outcome of the JS `fetch` call: the promise rejected (network error),
or a response with its `ok` flag and body text. -/
inductive FetchOutcome where
  | thrown
  | response (ok : Bool) (body : Str)
  deriving DecidableEq

/-- The I/O environment `fetchFromSource` interacts with: the per-id disk
cache (`some` = `stat` succeeded, mtime fresh and `readFile` succeeded) and
the network; `cacheWriteOk` models whether `mkdir`/`writeFile` throw. -/
structure FetchEnv where
  cacheFresh : Str → Option Str
  fetch : Str → FetchOutcome
  cacheWriteOk : Str → Bool

/-- Direct translation of `fetchFromSource`: fresh cache wins; otherwise
resolve the locator, fetch, parse, write the cache; any failure inside the
`try` (rejection, non-ok response, failing cache write) yields `none`. -/
def fetchFromSource (env : FetchEnv) (id source : Str) : Option Str :=
  match env.cacheFresh id with
  | some content => some content
  | none =>
    match resolveSourceUrl source with
    | none => none
    | some url =>
      match env.fetch url with
      | .thrown => none
      | .response ok body =>
        if ok then
          let instructions := parseSkillMd body
          if env.cacheWriteOk id then some instructions else none
        else none

/-- Direct translation of `resolveSource`: entries with no `source`, or with
instructions already differing from the description placeholder (JS
truthiness: a non-empty string), are returned as-is; otherwise the fetched
content replaces the instructions, and a failed fetch leaves the entry
unchanged. -/
def resolveSource (env : FetchEnv) (entry : CatalogEntry) : CatalogEntry :=
  match entry.source with
  | none => entry
  | some source =>
    if !entry.instructions.isEmpty && entry.instructions ≠ entry.description then
      entry
    else
      match fetchFromSource env entry.id source with
      | some instructions => { entry with instructions := instructions }
      | none => entry

/-! ## Project profiler (`mcp-server/src/detect.ts`)

The filesystem is an explicit record of probe functions; `none` models a
thrown error (`ENOENT`, permission failure, …), which the source catches. -/

/-- What `fs.readdir(dir, { withFileTypes: true })` reports per entry. -/
inductive EntryKind where
  | file | dir | other
  deriving DecidableEq, Repr

/-- A `Dirent`: name plus the result of `isFile()` / `isDirectory()`. -/
structure DirEntry where
  name : Str
  kind : EntryKind
  deriving DecidableEq, Repr

/-- The filesystem operations `detect.ts` performs.  `none` = the call threw. -/
structure FileSystem where
  readFile : Str → Option Str
  access : Str → Bool
  readdirTop : Str → Option (List DirEntry)
  readdirNames : Str → Option (List Str)

/-- `path.join(a, b)` for the simple two-segment joins the profiler makes. -/
def pathJoin (a b : Str) : Str := a ++ str "/" ++ b

/-- The fields of a parsed `package.json` that `readPackageJson` reads. -/
structure PkgJson where
  dependencies : List Str
  devDependencies : List Str
  scripts : List Str

/-- `JSON.parse` + key extraction, supplied by the environment; `none` = the
parse threw. -/
def PkgParse : Type := Str → Option PkgJson

/-- Result shape of `readPackageJson`. -/
structure ParsedPackageJson where
  allDeps : List Str
  scripts : List Str
  deriving DecidableEq, Repr

/-- Direct translation of `readPackageJson`: a failed read or parse yields
`null` (here `none`), never an error. -/
def readPackageJson (fs : FileSystem) (parse : PkgParse) (workspacePath : Str) :
    Option ParsedPackageJson :=
  match fs.readFile (pathJoin workspacePath (str "package.json")) with
  | none => none
  | some raw =>
    match parse raw with
    | none => none
    | some pkg => some { allDeps := pkg.dependencies ++ pkg.devDependencies
                         scripts := pkg.scripts }

/-- The fixed `CONFIG_FILES` list from `detect.ts`. -/
def CONFIG_FILES : List Str :=
  [str "tsconfig.json", str "pyproject.toml", str "Cargo.toml", str "go.mod",
   str ".eslintrc", str ".eslintrc.js", str ".eslintrc.json",
   str "eslint.config.js", str "eslint.config.mjs", str ".prettierrc",
   str "prettier.config.js", str "tailwind.config.ts", str "tailwind.config.js",
   str "postcss.config.js", str "postcss.config.mjs", str "next.config.js",
   str "next.config.mjs", str "next.config.ts", str "vite.config.ts",
   str "vite.config.js", str "nuxt.config.ts", str "svelte.config.js",
   str "angular.json", str "vercel.json", str ".vercel", str "netlify.toml",
   str "fly.toml", str "Dockerfile", str "docker-compose.yml",
   str "docker-compose.yaml", str ".github", str ".gitlab-ci.yml",
   str "prisma", str "drizzle.config.ts"]

/-- Direct translation of `detectConfigFiles`: keep the config names whose
`fs.access` succeeds (result order is the fixed list order). -/
def detectConfigFiles (fs : FileSystem) (workspacePath : Str) : List Str :=
  CONFIG_FILES.filter (fun file => fs.access (pathJoin workspacePath file))

/-- `path.extname(name)`: the suffix from the last dot, empty (here `none`,
since the source only tests truthiness) when there is no dot or the dot is
the leading character. -/
def extname (name : Str) : Option Str :=
  let tail := name.reverse.dropWhile (fun c => c ≠ '.')
  if tail.length ≤ 1 then none else some (name.drop (tail.length - 1))

/-- Insertion-ordered deduplication (JS `Set` accumulation order). -/
def dedupFirst (l : List Str) : List Str :=
  l.foldl (fun acc x => if x ∈ acc then acc else acc ++ [x]) []

/-- One step of the `detectFileTypes` loop body over a directory entry. -/
def fileTypeStep (fs : FileSystem) (workspacePath : Str) (acc : List Str)
    (entry : DirEntry) : List Str :=
  if (str ".").isPrefixOf entry.name ∨ entry.name = str "node_modules" ∨
      entry.name = str "dist" then acc
  else
    match entry.kind with
    | .file =>
      match extname entry.name with
      | some ext => acc ++ [ext]
      | none => acc
    | .dir =>
      match fs.readdirNames (pathJoin workspacePath entry.name) with
      | none => acc
      | some subEntries => acc ++ ((subEntries.take 50).filterMap extname)
    | .other => acc

/-- Direct translation of `detectFileTypes`: shallow two-level extension
census; an unreadable workspace yields the empty census, an unreadable
subdirectory is skipped. -/
def detectFileTypes (fs : FileSystem) (workspacePath : Str) : List Str :=
  match fs.readdirTop workspacePath with
  | none => []
  | some entries => dedupFirst (entries.foldl (fileTypeStep fs workspacePath) [])

/-- Direct translation of `detectLanguages`. -/
def detectLanguages (configs fileTypes : List Str) : List Str :=
  let l1 : List Str :=
    if str "tsconfig.json" ∈ configs ∨ str ".ts" ∈ fileTypes ∨
        str ".tsx" ∈ fileTypes then [str "TypeScript"] else []
  let l2 : List Str :=
    if str ".js" ∈ fileTypes ∨ str ".jsx" ∈ fileTypes then [str "JavaScript"] else []
  let l3 : List Str :=
    if str "pyproject.toml" ∈ configs ∨ str ".py" ∈ fileTypes then [str "Python"] else []
  let l4 : List Str :=
    if str "Cargo.toml" ∈ configs ∨ str ".rs" ∈ fileTypes then [str "Rust"] else []
  let l5 : List Str :=
    if str "go.mod" ∈ configs ∨ str ".go" ∈ fileTypes then [str "Go"] else []
  let langs := l1 ++ l2 ++ l3 ++ l4 ++ l5
  if langs.isEmpty then [str "Unknown"] else langs

/-- Direct translation of `detectFramework`. -/
def detectFramework (pkg : Option ParsedPackageJson) : Option Str :=
  match pkg with
  | none => none
  | some p =>
    let deps := p.allDeps
    if str "next" ∈ deps then some (str "Next.js")
    else if str "nuxt" ∈ deps then some (str "Nuxt")
    else if str "@sveltejs/kit" ∈ deps then some (str "SvelteKit")
    else if str "svelte" ∈ deps then some (str "Svelte")
    else if str "@angular/core" ∈ deps then some (str "Angular")
    else if str "vue" ∈ deps then some (str "Vue")
    else if str "react" ∈ deps then some (str "React")
    else if str "express" ∈ deps then some (str "Express")
    else if str "fastify" ∈ deps then some (str "Fastify")
    else if str "hono" ∈ deps then some (str "Hono")
    else none

/-- The fixed lockfile priority list of `detectPackageManager`. -/
def lockFiles : List (Str × Str) :=
  [(str "bun.lockb", str "bun"), (str "bun.lock", str "bun"),
   (str "pnpm-lock.yaml", str "pnpm"), (str "yarn.lock", str "yarn"),
   (str "package-lock.json", str "npm")]

/-- Direct translation of `detectPackageManager`: first lockfile whose
`fs.access` succeeds wins. -/
def detectPackageManager (fs : FileSystem) (workspacePath : Str) : Option Str :=
  lockFiles.findSome? (fun p => if fs.access (pathJoin workspacePath p.1) then some p.2 else none)

/-- The profile built by `detectProjectContext` once all four probes have
completed. -/
def computeProfile (fs : FileSystem) (parse : PkgParse) (workspacePath : Str) :
    ProjectProfile :=
  let packageJson := readPackageJson fs parse workspacePath
  let configFiles := detectConfigFiles fs workspacePath
  let fileTypes := detectFileTypes fs workspacePath
  let packageManager := detectPackageManager fs workspacePath
  { language := detectLanguages configFiles fileTypes
    framework := detectFramework packageJson
    dependencies := (packageJson.map ParsedPackageJson.allDeps).getD []
    configs := configFiles
    packageManager := packageManager
    fileTypes := fileTypes }

/-- The module-level `CACHE_TTL` (milliseconds). -/
def DETECT_CACHE_TTL : ℤ := 60000

/-- Direct translation of `detectProjectContext` with the mutable module
state explicit: `cache` is `cachedProfile` on entry, `tNow` is `Date.now()`
at the cache check, `tDone` is `Date.now()` at completion (the value stored
in the cache).  Returns the profile, the cache state on exit, and whether
the disk probes ran. -/
def detectProjectContext (fs : FileSystem) (parse : PkgParse)
    (workspacePath : Str) (tNow tDone : ℤ)
    (cache : Option (ProjectProfile × ℤ)) :
    ProjectProfile × Option (ProjectProfile × ℤ) × Bool :=
  match cache with
  | some (p, ts) =>
    if tNow - ts < DETECT_CACHE_TTL then (p, some (p, ts), false)
    else
      let profile := computeProfile fs parse workspacePath
      (profile, some (profile, tDone), true)
  | none =>
    let profile := computeProfile fs parse workspacePath
    (profile, some (profile, tDone), true)

/-! ## Worker matcher (`features/workers/matcher.ts`)

The database is external: the full worker table is passed in as a list, and
the skill-table lookup of `findSkillMatch` (a SQL `ILIKE` query) is passed
in as its result. -/

/-- `workers.status` enum. -/
inductive WorkerStatus where
  | pending | active | suspended
  deriving DecidableEq, Repr

/-- A worker row as the matcher consumes it.  `capabilities`/`limitations`
are the `.list` payloads (`?.list || []`); `reputationScore` and `pricing`
are modelled by their `parseFloat` values, `completionCount` is the integer
column, `avgCompletionTime` the numeric minutes column. -/
structure Worker where
  id : Str
  specialty : Str
  capabilities : List Str
  limitations : List Str
  reputationScore : ℚ
  completionCount : ℕ
  pricing : ℚ
  avgCompletionTime : ℚ
  status : WorkerStatus
  deriving DecidableEq, Repr

/-- A skill row (only its identity matters to the verified paths). -/
structure Skill where
  name : Str
  description : Str
  category : Str
  deriving DecidableEq, Repr

/-- `MatchRequest` from `matcher.ts`. -/
structure MatchRequest where
  task : Str
  specialty : Option Str
  budget : Option ℚ
  requiredCapabilities : Option (List Str)
  deriving DecidableEq, Repr

/-- Confidence tier of a worker match. -/
inductive Confidence where
  | high | medium | low
  deriving DecidableEq, Repr

/-- `WorkerMatch` (the interpolated `reasons` strings are presentational and
not modelled). -/
structure WorkerMatch where
  worker : Worker
  score : ℚ
  confidence : Confidence
  deriving DecidableEq, Repr

/-- `MatchResult` from `matcher.ts`. -/
inductive MatchResult where
  | skill (s : Skill)
  | worker (found : List WorkerMatch) (recommendation : Str)
  | noMatch (message : Str)
  deriving DecidableEq, Repr

/-- Post-lowercasing test for membership in the regex class `[a-z0-9]`. -/
def isWordChar (c : Char) : Bool :=
  ('a' ≤ c && c ≤ 'z') || ('0' ≤ c && c ≤ '9')

/-- Post-lowercasing test for membership in the regex class `\w`
(`[A-Za-z0-9_]`; uppercase cannot occur after `toLowerCase`). -/
def isJsWordChar (c : Char) : Bool := isWordChar c || c = '_'

/-- The matches of `/\b[a-z0-9]+\b/g` over an already-lowercased string:
maximal `[a-z0-9]` runs both of whose neighbours (when present) are
non-word characters. -/
def wordsOf (cs : Str) : List Str :=
  (List.range cs.length).filterMap (fun i =>
    match cs[i]? with
    | none => none
    | some c =>
      let beforeOk : Bool :=
        match i with
        | 0 => true
        | j + 1 =>
          match cs[j]? with
          | some p => !isJsWordChar p
          | none => true
      if isWordChar c && beforeOk then
        let run := (cs.drop i).takeWhile isWordChar
        let afterOk : Bool :=
          match cs[i + run.length]? with
          | some a => !isJsWordChar a
          | none => true
        if afterOk then some run else none
      else none)

/-- The fixed stop-word set of `extractKeywords`, in source order. -/
def stopWords : List Str :=
  [str "the", str "a", str "an", str "and", str "or", str "but", str "in",
   str "on", str "at", str "to", str "for", str "of", str "with", str "by",
   str "from", str "as", str "is", str "was", str "are", str "were",
   str "been", str "be", str "have", str "has", str "had", str "do",
   str "does", str "did", str "will", str "would", str "should", str "could",
   str "may", str "might", str "must", str "can", str "this", str "that",
   str "these", str "those", str "my", str "your", str "i", str "you",
   str "we", str "they", str "it"]

/-- Direct translation of `extractKeywords`: lowercase, tokenize with
`/\b[a-z0-9]+\b/g`, drop stop words and words of length ≤ 2, deduplicate
keeping first occurrences (JS `Set` order). -/
def extractKeywords (task : Str) : List Str :=
  let normalized := toLowerStr task
  let words := wordsOf normalized
  let keywords := words.filter (fun w => decide (2 < w.length) && !stopWords.contains w)
  dedupFirst keywords

/-- The extracted keywords that substring-match some declared capability
(step 3 of the scoring loop). -/
def capabilityMatches (keywords capabilities : List Str) : List Str :=
  keywords.filter (fun kw => capabilities.any (fun cap => strIncludes (toLowerStr cap) kw))

/-- Step 4 of the scoring loop: some keyword substring-matches some
declared limitation. -/
def hasLimitationConflict (keywords limitations : List Str) : Bool :=
  keywords.any (fun kw => limitations.any (fun lim => strIncludes (toLowerStr lim) kw))

/-- The additive score of the `findWorkerMatches` scoring loop, accumulated
in the source's order. -/
def scoreWorker (w : Worker) (keywords : List Str) : ℚ :=
  let s0 : ℚ := 0
  let s1 := s0 + w.reputationScore * 10
  let s2 := s1 + min ((w.completionCount : ℚ) * (1 / 2)) 20
  let s3 := s2 + ((capabilityMatches keywords w.capabilities).length : ℚ) * 10
  let s4 := if hasLimitationConflict keywords w.limitations then s3 - 50 else s3
  let s5 := s4 + max 0 (10 - w.pricing / 5)
  let s6 := s5 + max 0 (10 - w.avgCompletionTime / 10)
  s6

/-- Confidence bucketing from the scoring loop (`≥ 70` high, `≥ 40` medium,
else low). -/
def confidenceOf (score : ℚ) : Confidence :=
  if 70 ≤ score then .high else if 40 ≤ score then .medium else .low

/-- The `WorkerMatch` record built for one candidate. -/
def mkWorkerMatch (keywords : List Str) (w : Worker) : WorkerMatch :=
  { worker := w
    score := scoreWorker w keywords
    confidence := confidenceOf (scoreWorker w keywords) }

/-- One `where` clause of the candidate query builder. -/
inductive WhereClause where
  | statusActive
  | specialtyEq (s : Str)
  | pricingLe (b : ℚ)
  deriving DecidableEq, Repr

/-- Evaluation of a `where` clause on a worker row. -/
def clauseHolds : WhereClause → Worker → Bool
  | .statusActive, w => decide (w.status = WorkerStatus.active)
  | .specialtyEq s, w => decide (w.specialty = s)
  | .pricingLe b, w => decide (w.pricing ≤ b)

/-- The `where` clause the query builder of `findWorkerMatches` holds after
the chained calls.  Drizzle's select-builder `.where()` assigns
`config.where` and so overrides any previously set clause — the builder's
type forbids a second call, hence the `as any` casts in the source — so
each truthy request field replaces the clause set before it (JS truthiness:
`undefined`, the empty string and `0` are falsy and set nothing). -/
def finalWhere (req : MatchRequest) : WhereClause :=
  let c0 := WhereClause.statusActive
  let c1 :=
    match req.specialty with
    | some s => if s.isEmpty then c0 else WhereClause.specialtyEq s
    | none => c0
  match req.budget with
  | some b => if b = 0 then c1 else WhereClause.pricingLe b
  | none => c1

/-- The candidate query of `findWorkerMatches`: the worker table restricted
by the single surviving `where` clause. -/
def preFilterWorkers (req : MatchRequest) (allWorkers : List Worker) : List Worker :=
  allWorkers.filter (clauseHolds (finalWhere req))

/-- The descending-score order used by `scored.sort((a, b) => b.score - a.score)`. -/
def scoreGe (a b : WorkerMatch) : Prop := b.score ≤ a.score

instance : DecidableRel scoreGe := fun a b => inferInstanceAs (Decidable (b.score ≤ a.score))

/-- Direct translation of `findWorkerMatches`: pre-filter, score, sort by
descending score, drop non-positive scores. -/
def findWorkerMatches (req : MatchRequest) (allWorkers : List Worker) :
    List WorkerMatch :=
  let candidates := preFilterWorkers req allWorkers
  let keywords := extractKeywords req.task
  let scored := candidates.map (mkWorkerMatch keywords)
  let sorted := scored.insertionSort scoreGe
  sorted.filter (fun s => decide (0 < s.score))

/-- Direct translation of `getRecommendationReason`. -/
def getRecommendationReason (req : MatchRequest) : Str :=
  let task := toLowerStr req.task
  let r1 : List Str :=
    if strIncludes task (str "refactor") || strIncludes task (str "redesign") then
      [str "Requires design judgment and multi-step thinking"] else []
  let r2 : List Str :=
    if strIncludes task (str "complex") || strIncludes task (str "multiple") then
      [str "Multi-step task requiring human oversight"] else []
  let r3 : List Str :=
    if strIncludes task (str "custom") || strIncludes task (str "specific") then
      [str "Custom work tailored to your needs"] else []
  let reasons := r1 ++ r2 ++ r3
  let reasons :=
    if reasons.isEmpty then [str "Task requires flexible problem-solving"] else reasons
  List.intercalate (str " • ") reasons

/-- The constant message of the `none` result. -/
def NO_WORKERS_MSG : Str :=
  str "No workers found matching your requirements. Try adjusting your request."

/-- Direct translation of `findMatch`, with the result of the external
`findSkillMatch` DB query passed in: a found skill wins; otherwise rank
workers, degrading to a `noMatch` message when no candidate survives. -/
def findMatch (skillResult : Option Skill) (allWorkers : List Worker)
    (req : MatchRequest) : MatchResult :=
  match skillResult with
  | some s => .skill s
  | none =>
    let workerMatches := findWorkerMatches req allWorkers
    if workerMatches.isEmpty then .noMatch NO_WORKERS_MSG
    else .worker (workerMatches.take 5) (getRecommendationReason req)

/-! ## Concrete instances used to exercise the theorems -/

/-- A filesystem on which every probe throws. -/
def failingFs : FileSystem :=
  { readFile := fun _ => none
    access := fun _ => false
    readdirTop := fun _ => none
    readdirNames := fun _ => none }

/-- A manifest parse that always throws. -/
def failingParse : PkgParse := fun _ => none

/-- A fetch environment with a cold cache whose every fetch rejects. -/
def failingFetchEnv : FetchEnv :=
  { cacheFresh := fun _ => none
    fetch := fun _ => FetchOutcome.thrown
    cacheWriteOk := fun _ => true }

/-- A remote-sourced entry whose locator has an unsupported shape. -/
def ftpEntry : CatalogEntry :=
  { id := str "ftp-skill"
    type := EntryType.skill
    name := str "ftp skill"
    description := str "placeholder text"
    instructions := str "placeholder text"
    detect := none
    context_patterns := none
    examples := none
    source := some (str "ftp://example.org/SKILL.md")
    stars := none }

/-- A bundled entry shadowed by a project-local entry with the same id. -/
def bundledSentry : CatalogEntry :=
  { id := str "sentry-setup"
    type := EntryType.skill
    name := str "Sentry setup"
    description := str "bundled variant"
    instructions := str "bundled variant"
    detect := none
    context_patterns := none
    examples := none
    source := none
    stars := some 10 }

/-- The project-local override of `bundledSentry`. -/
def projectSentry : CatalogEntry :=
  { bundledSentry with
    description := str "local variant"
    instructions := str "local variant" }

/-- A request used against an empty worker table. -/
def emptyTableReq : MatchRequest :=
  { task := str "polish the docs"
    specialty := none
    budget := none
    requiredCapabilities := none }

/-- A worker used to exercise the scoring monotonicity bounds. -/
def monotoneWorker : Worker :=
  { id := str "w-mono"
    specialty := str "refactoring"
    capabilities := [str "refactoring"]
    limitations := []
    reputationScore := 1
    completionCount := 0
    pricing := 5
    avgCompletionTime := 10
    status := WorkerStatus.active }

/-- A request carrying a supplied-but-falsy budget of `0`. -/
def zeroBudgetReq : MatchRequest :=
  { task := str "review stuff"
    specialty := none
    budget := some 0
    requiredCapabilities := none }

/-- A request carrying a truthy budget of `10`. -/
def tenBudgetReq : MatchRequest :=
  { task := str "review stuff"
    specialty := none
    budget := some 10
    requiredCapabilities := none }

/-- An active worker priced at `5`. -/
def pricedWorker : Worker :=
  { id := str "w-priced"
    specialty := str "code-review"
    capabilities := []
    limitations := []
    reputationScore := 1
    completionCount := 0
    pricing := 5
    avgCompletionTime := 10
    status := WorkerStatus.active }

/-- A suspended worker of a different specialty, also priced at `5`. -/
def suspendedWorker : Worker :=
  { pricedWorker with
    id := str "w-susp"
    specialty := str "landing-page-design"
    status := WorkerStatus.suspended }

/-- A request supplying both a non-empty specialty and a truthy budget. -/
def overrideReq : MatchRequest :=
  { task := str "review stuff"
    specialty := some (str "seo")
    budget := some 10
    requiredCapabilities := none }

/-- A request supplying a non-empty specialty and no budget. -/
def specialtyReq : MatchRequest :=
  { task := str "review stuff"
    specialty := some (str "code-review")
    budget := none
    requiredCapabilities := none }

/-! ## The filtering predicate (C1) -/

/-- C1: `matchesProfile` passes an entry against a profile exactly when the
entry has no detect rule, or else no excluded file is present in the
profile's configs and in addition the rule declares neither required files
nor required dependencies, or some required file is among the configs, or
some required dependency is among the dependencies (an OR between the two
families).  In particular an excluded-file hit fails the entry outright and
a rule-free entry passes against every profile. -/
theorem matchesProfile_characterization (entry : CatalogEntry) (profile : ProjectProfile) :
    matchesProfile entry profile = true ↔
      (entry.detect = none ∨
       ∃ d, entry.detect = some d ∧
         (∀ f ∈ d.exclude_files.getD [], f ∉ profile.configs) ∧
         ((d.files.getD [] = [] ∧ d.dependencies.getD [] = []) ∨
          (∃ f ∈ d.files.getD [], f ∈ profile.configs) ∨
          (∃ dep ∈ d.dependencies.getD [], dep ∈ profile.dependencies))) := by
  cases hdet : entry.detect with
  | none => simp [matchesProfile, hdet]
  | some d =>
    rcases d with ⟨fs, ds, ex⟩
    simp only [matchesProfile, hdet, Option.some.injEq]
    cases ex <;> cases fs <;> cases ds <;>
      simp [List.any_eq_true, List.isEmpty_iff] <;>
      aesop

/-! ## The id-keyed merge (C5) -/

theorem lookupId_mapInsert (l : List CatalogEntry) (e : CatalogEntry) (i : Str) :
    lookupId (mapInsert l e) i = if e.id = i then some e else lookupId l i := by
  induction l with
  | nil =>
    by_cases h : e.id = i <;> simp [mapInsert, lookupId, List.find?, h]
  | cons x xs ih =>
    simp only [mapInsert]
    by_cases hx : x.id = e.id
    · rw [if_pos hx]
      by_cases h : e.id = i
      · simp [lookupId, List.find?, h]
      · have hxi : ¬ x.id = i := by rw [hx]; exact h
        simp [lookupId, List.find?, h, hxi]
    · rw [if_neg hx]
      by_cases hxi : x.id = i
      · have h : ¬ e.id = i := fun he => hx (hxi.trans he.symm)
        simp [lookupId, List.find?, h, hxi]
      · by_cases h : e.id = i <;>
          simpa [lookupId, List.find?, h, hxi] using ih

theorem lookupId_insertAll (xs : List CatalogEntry) (acc : List CatalogEntry) (i : Str) :
    lookupId (xs.foldl mapInsert acc) i =
      match lastWithId xs i with
      | some e => some e
      | none => lookupId acc i := by
  induction xs generalizing acc with
  | nil => simp [lastWithId]
  | cons x xs ih =>
    rw [List.foldl_cons, ih]
    cases hlast : lastWithId xs i with
    | some e => simp [lastWithId, hlast]
    | none =>
      by_cases h : x.id = i <;>
        simp [lastWithId, hlast, lookupId_mapInsert, h]

theorem lastWithId_mem {xs : List CatalogEntry} {i : Str} {e : CatalogEntry}
    (h : lastWithId xs i = some e) : e ∈ xs ∧ e.id = i := by
  induction xs with
  | nil => simp [lastWithId] at h
  | cons x xs ih =>
    rw [lastWithId] at h
    cases hlast : lastWithId xs i with
    | some q =>
      rw [hlast] at h
      obtain ⟨hm, hid⟩ := ih (hlast.trans h)
      exact ⟨List.mem_cons_of_mem _ hm, hid⟩
    | none =>
      rw [hlast] at h
      by_cases hx : x.id = i
      · simp [hx] at h
        exact ⟨by simp [← h], by rw [← h]; exact hx⟩
      · simp [hx] at h

theorem lastWithId_isSome_of_mem {xs : List CatalogEntry} {p : CatalogEntry} {i : Str}
    (hm : p ∈ xs) (hid : p.id = i) : ∃ q, lastWithId xs i = some q := by
  induction xs with
  | nil => simp at hm
  | cons x xs ih =>
    rw [lastWithId]
    cases hlast : lastWithId xs i with
    | some q => exact ⟨q, rfl⟩
    | none =>
      rcases List.mem_cons.mp hm with heq | htl
      · subst heq
        simp [hid]
      · obtain ⟨q, hq⟩ := ih htl
        rw [hq] at hlast
        cases hlast

theorem mem_mapInsert {l : List CatalogEntry} {e x : CatalogEntry}
    (h : x ∈ mapInsert l e) : x ∈ l ∨ x = e := by
  induction l with
  | nil => simpa [mapInsert] using h
  | cons y ys ih =>
    rw [mapInsert] at h
    by_cases hy : y.id = e.id
    · simp [hy] at h
      rcases h with h | h
      · exact Or.inr h
      · exact Or.inl (List.mem_cons_of_mem _ h)
    · simp [hy] at h
      rcases h with h | h
      · exact Or.inl (by simp [h])
      · rcases ih h with h2 | h2
        · exact Or.inl (List.mem_cons_of_mem _ h2)
        · exact Or.inr h2

theorem nodupKeys_mapInsert {l : List CatalogEntry} (e : CatalogEntry)
    (h : (l.map CatalogEntry.id).Nodup) :
    ((mapInsert l e).map CatalogEntry.id).Nodup := by
  induction l with
  | nil =>
    simp only [mapInsert, List.map_cons, List.map_nil]
    exact List.nodup_singleton _
  | cons x xs ih =>
    simp only [mapInsert]
    simp only [List.map_cons, List.nodup_cons] at h
    by_cases hx : x.id = e.id
    · rw [if_pos hx]
      simp only [List.map_cons, List.nodup_cons]
      exact ⟨hx ▸ h.1, h.2⟩
    · rw [if_neg hx]
      simp only [List.map_cons, List.nodup_cons]
      refine ⟨fun hmem => ?_, ih h.2⟩
      rw [List.mem_map] at hmem
      obtain ⟨y, hy, hyid⟩ := hmem
      rcases mem_mapInsert hy with hyl | hye
      · exact h.1 (List.mem_map.mpr ⟨y, hyl, hyid⟩)
      · exact hx (by rw [← hyid, hye])

theorem nodupKeys_insertAll (xs : List CatalogEntry) {acc : List CatalogEntry}
    (h : (acc.map CatalogEntry.id).Nodup) :
    ((xs.foldl mapInsert acc).map CatalogEntry.id).Nodup := by
  induction xs generalizing acc with
  | nil => simpa using h
  | cons x xs ih => exact ih (nodupKeys_mapInsert x h)

theorem lookupId_of_mem_nodup {l : List CatalogEntry} {e : CatalogEntry}
    (hnd : (l.map CatalogEntry.id).Nodup) (hm : e ∈ l) :
    lookupId l e.id = some e := by
  induction l with
  | nil => simp at hm
  | cons x xs ih =>
    simp only [List.map_cons, List.nodup_cons] at hnd
    rcases List.mem_cons.mp hm with heq | htl
    · subst heq
      simp [lookupId, List.find?]
    · have hx : ¬ x.id = e.id := fun hcontra =>
        hnd.1 (hcontra ▸ List.mem_map.mpr ⟨e, htl, rfl⟩)
      simpa [lookupId, List.find?, hx] using ih hnd.2 htl

theorem lookupId_mem {l : List CatalogEntry} {i : Str} {e : CatalogEntry}
    (h : lookupId l i = some e) : e ∈ l ∧ e.id = i := by
  refine ⟨List.mem_of_find?_eq_some h, ?_⟩
  have := List.find?_some h
  simpa using this

/-- C5: the id-keyed table built by `getRelevantEntries` has pairwise
distinct ids after the merge, contains an entry for every id occurring in
either input collection, and every merged entry whose id also occurs in the
project-local collection comes from the project-local collection (project
shadows bundled). -/
theorem mergeById_unique_project_precedence (bundled project : List CatalogEntry) :
    ((mergeById bundled project).map CatalogEntry.id).Nodup ∧
    (∀ x ∈ bundled ++ project, ∃ e ∈ mergeById bundled project, e.id = x.id) ∧
    (∀ e ∈ mergeById bundled project, (∃ p ∈ project, p.id = e.id) → e ∈ project) := by
  have hnd : ((mergeById bundled project).map CatalogEntry.id).Nodup :=
    nodupKeys_insertAll project (nodupKeys_insertAll bundled (by simp))
  refine ⟨hnd, ?_, ?_⟩
  · intro x hx
    rcases List.mem_append.mp hx with hb | hp
    · cases hlastp : lastWithId project x.id with
      | some q =>
        have hq : lookupId (mergeById bundled project) x.id = some q := by
          rw [mergeById, lookupId_insertAll, hlastp]
        obtain ⟨hqm, hqid⟩ := lookupId_mem hq
        exact ⟨q, hqm, hqid⟩
      | none =>
        obtain ⟨q, hq⟩ := lastWithId_isSome_of_mem hb rfl
        have hq2 : lookupId (mergeById bundled project) x.id = some q := by
          rw [mergeById, lookupId_insertAll, hlastp, lookupId_insertAll, hq]
        obtain ⟨hqm, hqid⟩ := lookupId_mem hq2
        exact ⟨q, hqm, hqid⟩
    · obtain ⟨q, hq⟩ := lastWithId_isSome_of_mem hp rfl
      have hq2 : lookupId (mergeById bundled project) x.id = some q := by
        rw [mergeById, lookupId_insertAll, hq]
      obtain ⟨hqm, hqid⟩ := lookupId_mem hq2
      exact ⟨q, hqm, hqid⟩
  · intro e he hex
    obtain ⟨p, hp, hpid⟩ := hex
    obtain ⟨q, hq⟩ := lastWithId_isSome_of_mem hp hpid
    have hlook : lookupId (mergeById bundled project) e.id = some q := by
      rw [mergeById, lookupId_insertAll, hq]
    have hlook2 : lookupId (mergeById bundled project) e.id = some e :=
      lookupId_of_mem_nodup hnd he
    have hqe : q = e := by rw [hlook] at hlook2; exact Option.some.inj hlook2
    exact hqe ▸ (lastWithId_mem hq).1

/-- C5 applied: merging one bundled and one project-local entry sharing an
id keeps an entry for that id, and it is the project-local one. -/
theorem mergeById_unique_project_precedence_app :
    (∃ e ∈ mergeById [bundledSentry] [projectSentry], e.id = bundledSentry.id) ∧
    projectSentry ∈ [projectSentry] :=
  ⟨(mergeById_unique_project_precedence [bundledSentry] [projectSentry]).2.1
      bundledSentry (by simp),
   (mergeById_unique_project_precedence [bundledSentry] [projectSentry]).2.2
      projectSentry (by decide) ⟨projectSentry, by simp, rfl⟩⟩

/-! ## Frontmatter stripping (C10) -/

theorem isPrefixOf_eq_true_iff (l1 l2 : Str) : l1.isPrefixOf l2 = true ↔ l1 <+: l2 := by
  exact List.isPrefixOf_iff_prefix

theorem indexOfAux_eq_none (pat : Str) :
    ∀ (s : Str) (i : ℕ), (∀ j, ¬ pat <+: s.drop j) → indexOfAux pat s i = none := by
  intro s
  induction s with
  | nil =>
    intro i h
    have hnp : ¬ pat.isPrefixOf ([] : Str) = true := by
      rw [isPrefixOf_eq_true_iff]
      simpa using h 0
    simp [indexOfAux, hnp]
  | cons c rest ih =>
    intro i h
    have hnp : ¬ pat.isPrefixOf (c :: rest) = true := by
      rw [isPrefixOf_eq_true_iff]
      simpa using h 0
    rw [indexOfAux, if_neg hnp]
    exact ih (i + 1) (fun j => by simpa using h (j + 1))

theorem indexOfAux_eq_some (pat : Str) :
    ∀ (k : ℕ) (s : Str) (i : ℕ), pat <+: s.drop k →
      (∀ j, j < k → ¬ pat <+: s.drop j) → indexOfAux pat s i = some (i + k) := by
  intro k
  induction k with
  | zero =>
    intro s i hp _
    have hp0 : pat.isPrefixOf s = true := by
      rw [isPrefixOf_eq_true_iff]; simpa using hp
    cases s with
    | nil => simp [indexOfAux, hp0]
    | cons c rest => simp [indexOfAux, hp0]
  | succ k ih =>
    intro s i hp hmin
    cases s with
    | nil =>
      exact absurd (by simpa using hp) (by simpa using hmin 0 (Nat.succ_pos k))
    | cons c rest =>
      have hnp : ¬ pat.isPrefixOf (c :: rest) = true := by
        rw [isPrefixOf_eq_true_iff]
        simpa using hmin 0 (Nat.succ_pos k)
      rw [indexOfAux, if_neg hnp]
      have hres : indexOfAux pat rest (i + 1) = some ((i + 1) + k) := by
        refine ih rest (i + 1) (by simpa using hp) (fun j hj => ?_)
        simpa using hmin (j + 1) (Nat.succ_lt_succ hj)
      rw [hres]
      congr 1
      omega

/-- C10: when the trimmed fetched content starts with the `---` frontmatter
marker but no further `---` occurs at index ≥ 3, `parseSkillMd` returns the
whole trimmed content unchanged; when a closing marker exists at least
position `e ≥ 3`, the result is the trimmed text following that marker. -/
theorem parseSkillMd_frontmatter (content : Str) :
    ((str "---") <+: jsTrim content →
      (∀ i, 3 ≤ i → ¬ (str "---") <+: (jsTrim content).drop i) →
      parseSkillMd content = jsTrim content) ∧
    (∀ e, (str "---") <+: jsTrim content →
      3 ≤ e → (str "---") <+: (jsTrim content).drop e →
      (∀ j, 3 ≤ j → (str "---") <+: (jsTrim content).drop j → e ≤ j) →
      parseSkillMd content = jsTrim ((jsTrim content).drop (e + 3))) := by
  constructor
  · intro hp hnone
    have hpre : (str "---").isPrefixOf (jsTrim content) = true := by
      rw [isPrefixOf_eq_true_iff]; exact hp
    have hidx : indexOfFrom (jsTrim content) (str "---") 3 = none := by
      unfold indexOfFrom
      refine indexOfAux_eq_none _ _ _ (fun j => ?_)
      rw [List.drop_drop]
      exact hnone (3 + j) (by omega)
    simp [parseSkillMd, hpre, hidx]
  · intro e hp he3 hpe hmin
    have hpre : (str "---").isPrefixOf (jsTrim content) = true := by
      rw [isPrefixOf_eq_true_iff]; exact hp
    have hidx : indexOfFrom (jsTrim content) (str "---") 3 = some e := by
      unfold indexOfFrom
      have h1 : (str "---") <+: ((jsTrim content).drop 3).drop (e - 3) := by
        rw [List.drop_drop]
        have h33 : 3 + (e - 3) = e := by omega
        rw [h33]
        exact hpe
      have h2 : ∀ j, j < e - 3 → ¬ (str "---") <+: ((jsTrim content).drop 3).drop j := by
        intro j hj hcontra
        rw [List.drop_drop] at hcontra
        have := hmin (3 + j) (by omega) hcontra
        omega
      have hix := indexOfAux_eq_some (str "---") (e - 3) ((jsTrim content).drop 3) 3 h1 h2
      rw [hix]
      congr 1
      omega
    simp [parseSkillMd, hpre, hidx]

/-- C10 applied: content with an unterminated frontmatter block is returned
trimmed but whole; content with a closing marker at index 4 is cut after
it. -/
theorem parseSkillMd_frontmatter_app :
    parseSkillMd (str "---abc") = jsTrim (str "---abc") ∧
    parseSkillMd (str "---x---tail") =
      jsTrim ((jsTrim (str "---x---tail")).drop (4 + 3)) := by
  constructor
  · refine (parseSkillMd_frontmatter (str "---abc")).1 (by decide) ?_
    intro i h3
    by_cases h6 : i < 6
    · interval_cases i <;> decide
    · intro hcontra
      have hlen : ((jsTrim (str "---abc")).length : ℕ) ≤ i := by
        have : (jsTrim (str "---abc")).length = 6 := by decide
        omega
      rw [List.drop_eq_nil_of_le hlen] at hcontra
      exact absurd (List.prefix_nil.mp hcontra) (by decide)
  · refine (parseSkillMd_frontmatter (str "---x---tail")).2 4 (by decide) (by decide)
      (by decide) ?_
    intro j h3 hp
    by_cases h4 : 4 ≤ j
    · exact h4
    · have hj3 : j = 3 := by omega
      subst hj3
      exact absurd hp (by decide)

/-! ## Soft-failing source resolution (C4) -/

/-- C4: whenever source resolution fails — the locator has no resolvable
URL, the fetch rejects, or the response is non-2xx — `resolveSource`
returns the entry unmodified, and (by the totality of the model, mirroring
the catch-all handlers in the source) nothing propagates to the caller. -/
theorem resolveSource_failure_unmodified (env : FetchEnv) (entry : CatalogEntry)
    (src : Str) (hs : entry.source = some src)
    (hc : env.cacheFresh entry.id = none)
    (hfail : resolveSourceUrl src = none ∨
      ∀ url, resolveSourceUrl src = some url →
        (env.fetch url = FetchOutcome.thrown ∨
         ∃ body, env.fetch url = FetchOutcome.response false body)) :
    resolveSource env entry = entry := by
  have hf : fetchFromSource env entry.id src = none := by
    unfold fetchFromSource
    rw [hc]
    rcases hfail with hnone | hsome
    · rw [hnone]
    · cases hurl : resolveSourceUrl src with
      | none => rfl
      | some url =>
        rcases hsome url hurl with ht | ⟨body, hb⟩
        · simp [ht]
        · simp [hb]
  simp only [resolveSource, hs, hf]
  split <;> rfl

/-- C4 applied: an entry with an `ftp:` locator (no resolvable URL) against
a rejecting network is returned unmodified. -/
theorem resolveSource_failure_unmodified_app :
    resolveSource failingFetchEnv ftpEntry = ftpEntry :=
  resolveSource_failure_unmodified failingFetchEnv ftpEntry
    (str "ftp://example.org/SKILL.md") rfl rfl (Or.inl (by decide))

/-! ## Detection cache (C6) -/

/-- C6: a second `detectProjectContext` call, made less than 60 s after the
first call completed and wrote the cache, returns the first call's profile
unchanged and runs none of the disk probes (the `Bool` component of the
model is the "probes ran" flag). -/
theorem detect_cached_within_ttl (fs1 fs2 : FileSystem) (parse1 parse2 : PkgParse)
    (ws : Str) (t0 t0' t1 t1' : ℤ)
    (h : t1 - t0' < DETECT_CACHE_TTL) :
    detectProjectContext fs2 parse2 ws t1 t1'
        (detectProjectContext fs1 parse1 ws t0 t0' none).2.1 =
      ((detectProjectContext fs1 parse1 ws t0 t0' none).1,
       (detectProjectContext fs1 parse1 ws t0 t0' none).2.1, false) := by
  simp [detectProjectContext, h]

/-- C6 applied: with the cache written at t = 5 ms, a second call at
t = 100 ms is served from the cache without probing. -/
theorem detect_cached_within_ttl_app :
    detectProjectContext failingFs failingParse (str "/ws") 100 105
        (detectProjectContext failingFs failingParse (str "/ws") 0 5 none).2.1 =
      ((detectProjectContext failingFs failingParse (str "/ws") 0 5 none).1,
       (detectProjectContext failingFs failingParse (str "/ws") 0 5 none).2.1, false) :=
  detect_cached_within_ttl failingFs failingFs failingParse failingParse
    (str "/ws") 0 5 100 105 (by decide)

/-! ## Probe failures are absence (C9) -/

/-- C9: each probe of `detectProjectContext` maps a thrown filesystem
operation to the absent value — no manifest yields no dependencies, an
unreadable workspace yields an empty extension census, an unreadable
subdirectory is skipped, inaccessible paths yield no configs and no package
manager — and a fully failing filesystem still produces the complete
default profile; `detectProjectContext` itself is a total function of the
model, mirroring the catch handlers that keep the source from throwing. -/
theorem detect_probe_failures_absence :
    (∀ fs parse ws, fs.readFile (pathJoin ws (str "package.json")) = none →
        readPackageJson fs parse ws = none) ∧
    (∀ fs parse ws raw, fs.readFile (pathJoin ws (str "package.json")) = some raw →
        parse raw = none → readPackageJson fs parse ws = none) ∧
    (∀ fs ws, fs.readdirTop ws = none → detectFileTypes fs ws = []) ∧
    (∀ (fs : FileSystem) ws acc e, e.kind = EntryKind.dir →
        fs.readdirNames (pathJoin ws e.name) = none → fileTypeStep fs ws acc e = acc) ∧
    (∀ fs ws, (∀ p, fs.access p = false) →
        detectConfigFiles fs ws = [] ∧ detectPackageManager fs ws = none) ∧
    (∀ fs parse ws, fs.readFile (pathJoin ws (str "package.json")) = none →
        fs.readdirTop ws = none → (∀ p, fs.access p = false) →
        computeProfile fs parse ws =
          { language := [str "Unknown"], framework := none, dependencies := [],
            configs := [], packageManager := none, fileTypes := [] }) := by
  refine ⟨?_, ?_, ?_, ?_, ?_, ?_⟩
  · intro fs parse ws h
    simp [readPackageJson, h]
  · intro fs parse ws raw h hp
    simp [readPackageJson, h, hp]
  · intro fs ws h
    simp [detectFileTypes, h]
  · intro fs ws acc e hk hr
    unfold fileTypeStep
    rcases e with ⟨nm, k⟩
    subst hk
    by_cases hdot : ((str ".").isPrefixOf nm : Bool) = true
    · simp [hdot]
    · simp only [hdot]
      by_cases hnm : nm = str "node_modules"
      · simp [hnm]
      · by_cases hdist : nm = str "dist"
        · simp [hdist]
        · simp [hnm, hdist, hdot, hr]
  · intro fs ws h
    constructor
    · simp [detectConfigFiles, h]
    · simp [detectPackageManager, lockFiles, List.findSome?, h]
  · intro fs parse ws h1 h2 h3
    have hc : detectConfigFiles fs ws = [] := by simp [detectConfigFiles, h3]
    have hpm : detectPackageManager fs ws = none := by
      simp [detectPackageManager, lockFiles, List.findSome?, h3]
    have hpkg : readPackageJson fs parse ws = none := by simp [readPackageJson, h1]
    have hft : detectFileTypes fs ws = [] := by simp [detectFileTypes, h2]
    simp [computeProfile, hc, hpm, hpkg, hft, detectLanguages, detectFramework]

/-- C9 applied: on a filesystem whose every operation throws, each probe
reports absence and the profile degrades to the documented defaults. -/
theorem detect_probe_failures_absence_app :
    readPackageJson failingFs failingParse (str "/ws") = none ∧
    detectFileTypes failingFs (str "/ws") = [] ∧
    (detectConfigFiles failingFs (str "/ws") = [] ∧
     detectPackageManager failingFs (str "/ws") = none) ∧
    computeProfile failingFs failingParse (str "/ws") =
      { language := [str "Unknown"], framework := none, dependencies := [],
        configs := [], packageManager := none, fileTypes := [] } :=
  ⟨detect_probe_failures_absence.1 failingFs failingParse (str "/ws") rfl,
   detect_probe_failures_absence.2.2.1 failingFs (str "/ws") rfl,
   detect_probe_failures_absence.2.2.2.2.1 failingFs (str "/ws") (fun _ => rfl),
   detect_probe_failures_absence.2.2.2.2.2 failingFs failingParse (str "/ws")
     rfl rfl (fun _ => rfl)⟩

/-! ## Worker scoring (C2, C7) -/

/-- C2: the score the matcher computes for a candidate equals
`reputationScore × 10`, plus `min(completionCount × 0.5, 20)`, plus `10`
per extracted keyword substring-matching some capability, minus a flat `50`
when any extracted keyword substring-matches some limitation, plus
`max(0, 10 − pricing/5)`, plus `max(0, 10 − avgCompletionTime/10)`. -/
theorem scoreWorker_closed_form (w : Worker) (task : Str) :
    scoreWorker w (extractKeywords task) =
      w.reputationScore * 10
      + min ((w.completionCount : ℚ) * (1 / 2)) 20
      + ((capabilityMatches (extractKeywords task) w.capabilities).length : ℚ) * 10
      - (if hasLimitationConflict (extractKeywords task) w.limitations then 50 else 0)
      + max 0 (10 - w.pricing / 5)
      + max 0 (10 - w.avgCompletionTime / 10) := by
  unfold scoreWorker
  by_cases hc : hasLimitationConflict (extractKeywords task) w.limitations
  · simp only [if_pos hc]
    ring
  · simp only [if_neg hc]
    ring

/-- C7: the score is monotone in reputation, experience and speed, and a
newly introduced limitation conflict (where previously none matched)
lowers the score by exactly 50. -/
theorem scoreWorker_monotone :
    (∀ (w : Worker) (keywords : List Str) (r : ℚ), w.reputationScore ≤ r →
      scoreWorker w keywords ≤ scoreWorker { w with reputationScore := r } keywords) ∧
    (∀ (w : Worker) (keywords : List Str) (c : ℕ), w.completionCount ≤ c →
      scoreWorker w keywords ≤ scoreWorker { w with completionCount := c } keywords) ∧
    (∀ (w : Worker) (keywords : List Str) (t : ℚ), t ≤ w.avgCompletionTime →
      scoreWorker w keywords ≤ scoreWorker { w with avgCompletionTime := t } keywords) ∧
    (∀ (w : Worker) (keywords : List Str) (lims : List Str),
      hasLimitationConflict keywords w.limitations = false →
      hasLimitationConflict keywords lims = true →
      scoreWorker { w with limitations := lims } keywords = scoreWorker w keywords - 50) := by
  refine ⟨?_, ?_, ?_, ?_⟩
  · intro w kws r h
    unfold scoreWorker
    dsimp only
    have h10 : w.reputationScore * 10 ≤ r * 10 := by linarith
    by_cases hc : hasLimitationConflict kws w.limitations
    · simp only [if_pos hc]
      linarith
    · simp only [if_neg hc]
      linarith
  · intro w kws c h
    unfold scoreWorker
    dsimp only
    have hcast : (w.completionCount : ℚ) ≤ (c : ℚ) := by exact_mod_cast h
    have hmin : min ((w.completionCount : ℚ) * (1 / 2)) 20 ≤ min ((c : ℚ) * (1 / 2)) 20 :=
      min_le_min (by linarith) le_rfl
    by_cases hc : hasLimitationConflict kws w.limitations
    · simp only [if_pos hc]
      linarith
    · simp only [if_neg hc]
      linarith
  · intro w kws t h
    unfold scoreWorker
    dsimp only
    have hdiv : t / 10 ≤ w.avgCompletionTime / 10 := by linarith
    have hmax : max (0 : ℚ) (10 - w.avgCompletionTime / 10) ≤ max 0 (10 - t / 10) :=
      max_le_max le_rfl (by linarith)
    by_cases hc : hasLimitationConflict kws w.limitations
    · simp only [if_pos hc]
      linarith
    · simp only [if_neg hc]
      linarith
  · intro w kws lims h0 h1
    unfold scoreWorker
    dsimp only
    rw [if_pos h1, if_neg (by rw [h0]; exact Bool.false_ne_true)]
    ring

/-- C7 applied: raising the reputation, the completion count, or the speed
of a concrete worker does not lower its score, and adding a conflicting
limitation lowers it by exactly 50. -/
theorem scoreWorker_monotone_app :
    (scoreWorker monotoneWorker [str "refactor"] ≤
      scoreWorker { monotoneWorker with reputationScore := 2 } [str "refactor"]) ∧
    (scoreWorker monotoneWorker [str "refactor"] ≤
      scoreWorker { monotoneWorker with completionCount := 5 } [str "refactor"]) ∧
    (scoreWorker monotoneWorker [str "refactor"] ≤
      scoreWorker { monotoneWorker with avgCompletionTime := 5 } [str "refactor"]) ∧
    scoreWorker { monotoneWorker with limitations := [str "no refactors"] } [str "refactor"] =
      scoreWorker monotoneWorker [str "refactor"] - 50 :=
  ⟨scoreWorker_monotone.1 monotoneWorker [str "refactor"] 2 (by decide),
   scoreWorker_monotone.2.1 monotoneWorker [str "refactor"] 5 (by decide),
   scoreWorker_monotone.2.2.1 monotoneWorker [str "refactor"] 5 (by decide),
   scoreWorker_monotone.2.2.2 monotoneWorker [str "refactor"] [str "no refactors"]
     (by decide) (by decide)⟩

/-! ## Ranking shape of `findMatch` (C3) -/

instance : IsTotal WorkerMatch scoreGe := ⟨fun a b => le_total b.score a.score⟩

instance : IsTrans WorkerMatch scoreGe := ⟨fun _ _ _ hab hbc => le_trans hbc hab⟩

theorem mem_findWorkerMatches {req : MatchRequest} {allWorkers : List Worker}
    {m : WorkerMatch} (h : m ∈ findWorkerMatches req allWorkers) :
    m.worker ∈ preFilterWorkers req allWorkers ∧
    m.score = scoreWorker m.worker (extractKeywords req.task) := by
  unfold findWorkerMatches at h
  have h2 := List.mem_of_mem_filter h
  have h3 := (List.perm_insertionSort scoreGe _).mem_iff.mp h2
  rcases List.mem_map.mp h3 with ⟨w, hw, hmk⟩
  subst hmk
  exact ⟨hw, rfl⟩

theorem sorted_findWorkerMatches (req : MatchRequest) (allWorkers : List Worker) :
    (findWorkerMatches req allWorkers).Sorted scoreGe := by
  unfold findWorkerMatches
  exact (List.sorted_insertionSort scoreGe _).filter _

theorem pos_score_of_mem_findWorkerMatches {req : MatchRequest}
    {allWorkers : List Worker} {m : WorkerMatch}
    (h : m ∈ findWorkerMatches req allWorkers) : 0 < m.score := by
  unfold findWorkerMatches at h
  exact of_decide_eq_true (List.mem_filter.mp h).2

theorem findWorkerMatches_eq_nil {req : MatchRequest} {allWorkers : List Worker}
    (h : ∀ w ∈ preFilterWorkers req allWorkers,
      scoreWorker w (extractKeywords req.task) ≤ 0) :
    findWorkerMatches req allWorkers = [] := by
  unfold findWorkerMatches
  rw [List.filter_eq_nil_iff]
  intro m hm
  have h3 := (List.perm_insertionSort scoreGe _).mem_iff.mp hm
  rcases List.mem_map.mp h3 with ⟨w, hw, hmk⟩
  subst hmk
  simpa using not_lt.mpr (h w hw)

/-- C3: when no skill matched, every worker result of `findMatch` is sorted
by non-increasing score, contains only strictly positive scores, and holds
at most 5 matches; and when no scored candidate is strictly positive the
result is the explanatory `noMatch` message rather than an empty list. -/
theorem findMatch_ranking_properties (skillResult : Option Skill) (req : MatchRequest)
    (allWorkers : List Worker) (hskill : skillResult = none) :
    (∀ found rec, findMatch skillResult allWorkers req = MatchResult.worker found rec →
      found.Sorted scoreGe ∧ (∀ m ∈ found, 0 < m.score) ∧ found.length ≤ 5) ∧
    ((∀ w ∈ preFilterWorkers req allWorkers,
        scoreWorker w (extractKeywords req.task) ≤ 0) →
      findMatch skillResult allWorkers req = MatchResult.noMatch NO_WORKERS_MSG) := by
  subst hskill
  constructor
  · intro found rec h
    by_cases hempty : (findWorkerMatches req allWorkers).isEmpty
    · simp [findMatch, hempty] at h
    · simp only [findMatch, hempty, Bool.false_eq_true, if_false,
        MatchResult.worker.injEq] at h
      obtain ⟨hfound, _⟩ := h
      subst hfound
      refine ⟨?_, ?_, ?_⟩
      · exact (sorted_findWorkerMatches req allWorkers).sublist (List.take_sublist _ _)
      · intro m hm
        exact pos_score_of_mem_findWorkerMatches (List.mem_of_mem_take hm)
      · exact List.length_take_le 5 (findWorkerMatches req allWorkers)
  · intro hall
    have hnil := findWorkerMatches_eq_nil hall
    simp [findMatch, hnil]

/-- C3 applied: against an empty worker table the result is the `noMatch`
message. -/
theorem findMatch_ranking_properties_app :
    findMatch none [] emptyTableReq = MatchResult.noMatch NO_WORKERS_MSG :=
  (findMatch_ranking_properties none emptyTableReq [] rfl).2
    (by intro w hw; cases hw)

/-! ## Specialty / budget pre-filters (C8) -/

theorem finalWhere_of_budget {req : MatchRequest} {b : ℚ} (hb : req.budget = some b)
    (hb0 : b ≠ 0) : finalWhere req = WhereClause.pricingLe b := by
  unfold finalWhere
  simp only [hb]
  rw [if_neg hb0]

theorem finalWhere_of_specialty {req : MatchRequest} {s : Str}
    (hs : req.specialty = some s) (hne : s ≠ [])
    (hbud : req.budget = none ∨ req.budget = some 0) :
    finalWhere req = WhereClause.specialtyEq s := by
  unfold finalWhere
  have hempty : s.isEmpty = false := by
    cases s with
    | nil => exact absurd rfl hne
    | cons c cs => rfl
  rcases hbud with hb | hb <;> simp [hs, hb, hempty]

theorem pricing_le_of_mem_preFilter {req : MatchRequest} {allWorkers : List Worker}
    {w : Worker} {b : ℚ} (hb : req.budget = some b) (hb0 : b ≠ 0)
    (h : w ∈ preFilterWorkers req allWorkers) : w.pricing ≤ b := by
  unfold preFilterWorkers at h
  rw [finalWhere_of_budget hb hb0] at h
  have h2 := (List.mem_filter.mp h).2
  simpa [clauseHolds] using h2

theorem specialty_eq_of_mem_preFilter {req : MatchRequest} {allWorkers : List Worker}
    {w : Worker} {s : Str} (hs : req.specialty = some s) (hne : s ≠ [])
    (hbud : req.budget = none ∨ req.budget = some 0)
    (h : w ∈ preFilterWorkers req allWorkers) : w.specialty = s := by
  unfold preFilterWorkers at h
  rw [finalWhere_of_specialty hs hne hbud] at h
  have h2 := (List.mem_filter.mp h).2
  simpa [clauseHolds] using h2

/-- C8 (amended): when a truthy (nonzero) budget is supplied every returned
worker's pricing is within it — the `pricing ≤ budget` clause is the last
one assigned and survives the overrides; when a truthy (non-empty)
specialty is supplied **and no truthy budget is**, every returned worker's
specialty equals it exactly.  A supplied budget of `0` or an empty
specialty is falsy and sets no clause, and a truthy budget overrides the
specialty (and status) clause, since each drizzle `.where()` replaces the
previous one. -/
theorem findMatch_prefilter_bounds (skillResult : Option Skill) (req : MatchRequest)
    (allWorkers : List Worker) (found : List WorkerMatch) (rec : Str)
    (h : findMatch skillResult allWorkers req = MatchResult.worker found rec) :
    (∀ b, req.budget = some b → b ≠ 0 → ∀ m ∈ found, m.worker.pricing ≤ b) ∧
    (∀ s, req.specialty = some s → s ≠ [] →
      (req.budget = none ∨ req.budget = some 0) →
      ∀ m ∈ found, m.worker.specialty = s) := by
  cases skillResult with
  | some sk => simp [findMatch] at h
  | none =>
    by_cases hempty : (findWorkerMatches req allWorkers).isEmpty
    · simp [findMatch, hempty] at h
    · simp only [findMatch, hempty, Bool.false_eq_true, if_false,
        MatchResult.worker.injEq] at h
      obtain ⟨hfound, _⟩ := h
      subst hfound
      constructor
      · intro b hb hb0 m hm
        exact pricing_le_of_mem_preFilter hb hb0
          (mem_findWorkerMatches (List.mem_of_mem_take hm)).1
      · intro s hs hne hbud m hm
        exact specialty_eq_of_mem_preFilter hs hne hbud
          (mem_findWorkerMatches (List.mem_of_mem_take hm)).1

theorem scoreWorker_pricedWorker (kws : List Str) :
    scoreWorker pricedWorker kws = 28 := by
  have hcap : capabilityMatches kws pricedWorker.capabilities = [] := by
    unfold capabilityMatches pricedWorker
    simp
  have hlim : hasLimitationConflict kws pricedWorker.limitations = false := by
    unfold hasLimitationConflict pricedWorker
    simp
  unfold scoreWorker
  rw [hcap, hlim]
  simp only [pricedWorker]
  norm_num [min_def, max_def]

theorem scoreWorker_suspendedWorker (kws : List Str) :
    scoreWorker suspendedWorker kws = 28 := by
  have hcap : capabilityMatches kws suspendedWorker.capabilities = [] := by
    unfold capabilityMatches suspendedWorker pricedWorker
    simp
  have hlim : hasLimitationConflict kws suspendedWorker.limitations = false := by
    unfold hasLimitationConflict suspendedWorker pricedWorker
    simp
  unfold scoreWorker
  rw [hcap, hlim]
  simp only [suspendedWorker, pricedWorker]
  norm_num [min_def, max_def]

theorem findMatch_tenBudget_eval :
    findMatch none [pricedWorker] tenBudgetReq =
      MatchResult.worker [mkWorkerMatch (extractKeywords tenBudgetReq.task) pricedWorker]
        (getRecommendationReason tenBudgetReq) := by
  have hpre : preFilterWorkers tenBudgetReq [pricedWorker] = [pricedWorker] := by decide
  have hscore := scoreWorker_pricedWorker (extractKeywords tenBudgetReq.task)
  unfold findMatch findWorkerMatches
  rw [hpre]
  simp only [List.map_cons, List.map_nil, List.insertionSort, List.orderedInsert,
    List.filter, mkWorkerMatch, hscore]
  norm_num

theorem findMatch_zeroBudget_eval :
    findMatch none [pricedWorker] zeroBudgetReq =
      MatchResult.worker [mkWorkerMatch (extractKeywords zeroBudgetReq.task) pricedWorker]
        (getRecommendationReason zeroBudgetReq) := by
  have hpre : preFilterWorkers zeroBudgetReq [pricedWorker] = [pricedWorker] := by decide
  have hscore := scoreWorker_pricedWorker (extractKeywords zeroBudgetReq.task)
  unfold findMatch findWorkerMatches
  rw [hpre]
  simp only [List.map_cons, List.map_nil, List.insertionSort, List.orderedInsert,
    List.filter, mkWorkerMatch, hscore]
  norm_num

theorem findMatch_override_eval :
    findMatch none [suspendedWorker] overrideReq =
      MatchResult.worker [mkWorkerMatch (extractKeywords overrideReq.task) suspendedWorker]
        (getRecommendationReason overrideReq) := by
  have hpre : preFilterWorkers overrideReq [suspendedWorker] = [suspendedWorker] := by decide
  have hscore := scoreWorker_suspendedWorker (extractKeywords overrideReq.task)
  unfold findMatch findWorkerMatches
  rw [hpre]
  simp only [List.map_cons, List.map_nil, List.insertionSort, List.orderedInsert,
    List.filter, mkWorkerMatch, hscore]
  norm_num

theorem findMatch_specialty_eval :
    findMatch none [pricedWorker] specialtyReq =
      MatchResult.worker [mkWorkerMatch (extractKeywords specialtyReq.task) pricedWorker]
        (getRecommendationReason specialtyReq) := by
  have hpre : preFilterWorkers specialtyReq [pricedWorker] = [pricedWorker] := by decide
  have hscore := scoreWorker_pricedWorker (extractKeywords specialtyReq.task)
  unfold findMatch findWorkerMatches
  rw [hpre]
  simp only [List.map_cons, List.map_nil, List.insertionSort, List.orderedInsert,
    List.filter, mkWorkerMatch, hscore]
  norm_num

/-- C8 counterexample: (a) a supplied budget of `0` is falsy, so the
pricing pre-filter is never installed and a worker priced `5 > 0` is
returned; (b) with a non-empty specialty and a truthy budget both
supplied, the budget clause overrides the specialty clause, so a worker of
a different specialty (and suspended status) is returned. -/
theorem findMatch_prefilter_counterexample :
    (zeroBudgetReq.budget = some 0 ∧
     findMatch none [pricedWorker] zeroBudgetReq =
       MatchResult.worker [mkWorkerMatch (extractKeywords zeroBudgetReq.task) pricedWorker]
         (getRecommendationReason zeroBudgetReq) ∧
     ¬ (mkWorkerMatch (extractKeywords zeroBudgetReq.task) pricedWorker).worker.pricing ≤ 0) ∧
    (overrideReq.specialty = some (str "seo") ∧
     overrideReq.budget = some 10 ∧
     findMatch none [suspendedWorker] overrideReq =
       MatchResult.worker [mkWorkerMatch (extractKeywords overrideReq.task) suspendedWorker]
         (getRecommendationReason overrideReq) ∧
     (mkWorkerMatch (extractKeywords overrideReq.task) suspendedWorker).worker.specialty ≠
       str "seo") :=
  ⟨⟨rfl, findMatch_zeroBudget_eval, by decide⟩,
   ⟨rfl, rfl, findMatch_override_eval, by decide⟩⟩

/-- C8 applied: with the truthy budget `10` supplied the returned match
respects `pricing ≤ 10`, and with a non-empty specialty and no budget
supplied the returned match carries that exact specialty. -/
theorem findMatch_prefilter_bounds_app :
    (mkWorkerMatch (extractKeywords tenBudgetReq.task) pricedWorker).worker.pricing ≤ 10 ∧
    (mkWorkerMatch (extractKeywords specialtyReq.task) pricedWorker).worker.specialty =
      str "code-review" :=
  ⟨(findMatch_prefilter_bounds none tenBudgetReq [pricedWorker] _ _
      findMatch_tenBudget_eval).1 10 rfl (by decide) _ (by simp),
   (findMatch_prefilter_bounds none specialtyReq [pricedWorker] _ _
      findMatch_specialty_eval).2 (str "code-review") rfl (by decide) (Or.inl rfl) _
     (by simp)⟩

end Mentat
